import Mathlib

/-!
# Verification of `generate_talks.py` (talks2web)

Shallow embedding of the talk-processing script. Filesystem facts a unit
depends on (existence of its metadata file, of its PDF, of its output
directory and index marker) are explicit fields of the unit or of a
per-unit output state; the YAML load result, the external conversion
outcome and the markdown renderer are explicit inputs, since they come
from outside the script. All state mutation (`self.processed_talks`,
`self.skipped_talks`, `self.errors`) is explicit state passing on a
`BatchState` record. The worker pool is modelled as a fold over the
units in an arbitrary dispatch order.
-/

namespace TalksToWeb

/-- A calendar date as produced by YAML for `date: 2023-01-01`
(Python `datetime.date`, compared lexicographically). -/
structure TDate where
  year : Nat
  month : Nat
  day : Nat
deriving DecidableEq, Repr

/-- Python `date` ordering: lexicographic on (year, month, day). -/
def TDate.ble (a b : TDate) : Bool :=
  if a.year ≠ b.year then a.year < b.year
  else if a.month ≠ b.month then a.month < b.month
  else a.day ≤ b.day

/-- The raw `talk` section of a metadata file: every field may be absent. -/
structure RawTalk where
  title : Option String
  pdf : Option String
  description : Option String
  highlight : Option Nat
  date : Option TDate
  video : Option String
deriving DecidableEq, Repr

/-- A validated talk descriptor (all required fields present), with the
  `handle` assigned by `process_talk` (`metadata['handle'] = talk_handle`). -/
structure Talk where
  title : String
  pdf : String
  description : String
  highlight : Nat
  date : TDate
  video : Option String
  handle : String
deriving DecidableEq, Repr

/-- Field extraction once the required fields were checked present:
the dict returned by `parse_metadata` with all required keys, before the
handle is assigned (handle is filled in later, here with `""`). -/
def RawTalk.extract (r : RawTalk) : Option Talk :=
  match r.title, r.pdf, r.description, r.highlight, r.date with
  | some t, some p, some d, some h, some dt =>
      some { title := t, pdf := p, description := d, highlight := h,
             date := dt, video := r.video, handle := "" }
  | _, _, _, _, _ => none

/-- `metadata['handle'] = talk_handle`. -/
def Talk.withHandle (t : Talk) (h : String) : Talk := { t with handle := h }

/-- Result of `yaml.safe_load` on the metadata file:
  * `parseError`: the YAML syntax is invalid and the loader raised;
  * `emptyDoc`: `data` is falsy (`not data`);
  * `noTalk`: `data` is truthy but has no top-level `talk` key;
  * `talkSection r`: a `talk` section with the (possibly incomplete) fields. -/
inductive YamlLoad where
  | parseError (msg : String)
  | emptyDoc
  | noTalk
  | talkSection (r : RawTalk)
deriving DecidableEq, Repr

/-- The three shared collections of `TalkProcessor`. -/
structure BatchState where
  processed_talks : List Talk
  skipped_talks : List String
  errors : List String
deriving DecidableEq, Repr

/-- The state at `TalkProcessor.__init__`: three empty lists. -/
def BatchState.init : BatchState := ⟨[], [], []⟩

def BatchState.addError (st : BatchState) (msg : String) : BatchState :=
  { st with errors := st.errors ++ [msg] }

/-- First missing required field, in the loop order of `parse_metadata`:
`['title', 'pdf', 'description', 'highlight', 'date']`. -/
def firstMissing (r : RawTalk) : Option String :=
  if r.title.isNone then some "title"
  else if r.pdf.isNone then some "pdf"
  else if r.description.isNone then some "description"
  else if r.highlight.isNone then some "highlight"
  else if r.date.isNone then some "date"
  else none

/-- `TalkProcessor.parse_metadata`: validate the YAML load of
`metadata_file` (whose printable name is `name`); on any failure append
one error `f"Error parsing {metadata_file}: {e}"` and return `None`. -/
def parse_metadata (st : BatchState) (name : String) (file : YamlLoad) :
    BatchState × Option Talk :=
  match file with
  | .parseError msg =>
      (st.addError ("Error parsing " ++ name ++ ": " ++ msg), none)
  | .emptyDoc =>
      (st.addError ("Error parsing " ++ name ++ ": Missing 'talk' section in metadata"), none)
  | .noTalk =>
      (st.addError ("Error parsing " ++ name ++ ": Missing 'talk' section in metadata"), none)
  | .talkSection r =>
      match firstMissing r with
      | some f =>
          (st.addError ("Error parsing " ++ name ++ ": Missing required field: " ++ f), none)
      | none => (st, r.extract)

/-- State of the unit's output subdirectory `output_dir / talk_handle`. -/
structure OutState where
  indexExists : Bool
  isDir : Bool
deriving DecidableEq, Repr

/-- `TalkProcessor.is_talk_processed`: `index_file.exists() and talk_output_dir.is_dir()`. -/
def is_talk_processed (o : OutState) : Bool :=
  o.indexExists && o.isDir

/-- Outcome of the `./script.sh` invocation (`subprocess.run(..., check=True)`):
normal return with captured stdout, or `CalledProcessError` with captured stderr. -/
inductive ConvResult where
  | success (stdout : String)
  | failure (stderr : String)
deriving DecidableEq, Repr

/-- One talk unit: the name of its source directory and the filesystem /
collaborator facts its processing depends on. `unexpected` models an
exception escaping `process_talk` itself (caught by the orchestrator's
catch-all); `none` means processing runs normally. -/
structure TalkUnit where
  handle : String
  metadataExists : Bool
  metadataContent : YamlLoad
  pdfExists : Bool
  convResult : ConvResult
  unexpected : Option String
deriving DecidableEq, Repr

/-- Printable name of the unit's metadata file, `talk_dir / "metadata.yml"`. -/
def TalkUnit.metadataName (u : TalkUnit) : String :=
  u.handle ++ "/metadata.yml"

/-- Side effects of `process_talk` on the unit's own output directory, in
program order. -/
inductive Effect where
  | mkdirOut
  | runConv
  | copyPdf
deriving DecidableEq, Repr

/-- Result of one `process_talk` call: new batch state, the boolean the
function returns, the trace of filesystem/collaborator effects in order,
and the unit's output-directory state afterwards. -/
structure ProcResult where
  state : BatchState
  ok : Bool
  effects : List Effect
  out : OutState
deriving Repr

/-- `TalkProcessor.process_talk` for one unit. A successful conversion
leaves the index marker in the output directory (modelled from the spec:
the external collaborator `./script.sh` is expected to produce a slideshow
viewer page — the index document — inside the output directory on success,
and only diagnostics on failure). -/
def process_talk (force : Bool) (u : TalkUnit) (o : OutState) (st : BatchState) :
    ProcResult :=
  if !u.metadataExists then
    { state := st.addError ("No metadata.yml found in " ++ u.handle),
      ok := false, effects := [], out := o }
  else
    match parse_metadata st u.metadataName u.metadataContent with
    | (st', none) => { state := st', ok := false, effects := [], out := o }
    | (st', some m) =>
      if !force && is_talk_processed o then
        { state := { st' with
            skipped_talks := st'.skipped_talks ++ [u.handle],
            processed_talks := st'.processed_talks ++ [m.withHandle u.handle] },
          ok := true, effects := [], out := o }
      else if !u.pdfExists then
        { state := st'.addError ("PDF file not found: " ++ u.handle ++ "/" ++ m.pdf),
          ok := false, effects := [], out := o }
      else
        let o1 : OutState := { o with isDir := true }
        match u.convResult with
        | .failure stderr =>
            { state := st'.addError ("Error processing " ++ u.handle ++ ": " ++ stderr),
              ok := false, effects := [.mkdirOut, .runConv], out := o1 }
        | .success _ =>
            { state := { st' with
                processed_talks := st'.processed_talks ++ [m.withHandle u.handle] },
              ok := true, effects := [.mkdirOut, .runConv, .copyPdf],
              out := { o1 with indexExists := true } }

/-- The talk descriptor a YAML load validates to, when it does. -/
def YamlLoad.valid? : YamlLoad → Option Talk
  | .talkSection r => if firstMissing r = none then r.extract else none
  | _ => none

/-- The validated metadata of a unit, when loading would succeed. -/
def TalkUnit.meta? (u : TalkUnit) : Option Talk :=
  if u.metadataExists then u.metadataContent.valid? else none

/-! ## Listing renderer (`generate_landing_page` and helpers) -/

/-- Stable insertion of a talk into a date-descending list: the new talk
(earlier in the original order) goes before the first element whose date
it is ≥ to, so equal dates keep their original relative order. -/
def insertByDateDesc (t : Talk) : List Talk → List Talk
  | [] => [t]
  | h :: rest =>
      if TDate.ble h.date t.date then t :: h :: rest
      else h :: insertByDateDesc t rest

/-- `sorted(self.processed_talks, key=lambda t: t['date'], reverse=True)`:
Python's `sorted` is the stable sort; with `reverse=True` it is descending
by the key with ties keeping original order, which is exactly what this
insertion sort computes (see `sortTalksDesc_perm`, `sortTalksDesc_sorted`,
`sortTalksDesc_stable`, which pin the function uniquely). -/
def sortTalksDesc : List Talk → List Talk
  | [] => []
  | t :: rest => insertByDateDesc t (sortTalksDesc rest)

/-- Insertion step for `sorted(keys, reverse=True)` on years. -/
def insertNatDesc (y : Nat) : List Nat → List Nat
  | [] => [y]
  | h :: rest =>
      if h ≥ y then h :: insertNatDesc y rest
      else y :: h :: rest

/-- `sorted(talks_by_year.keys(), reverse=True)`. -/
def sortNatDesc : List Nat → List Nat
  | [] => []
  | y :: rest => insertNatDesc y (sortNatDesc rest)

/-- The keys of `talks_by_year` in insertion order: first-occurrence order
of `talk['date'].year` over the sorted talk list. -/
def yearsOf (ts : List Talk) : List Nat :=
  ts.foldl (fun acc t => if t.date.year ∈ acc then acc else acc ++ [t.date.year]) []

/-- `talks_by_year[year]`: the talks of that year, in sorted-list order. -/
def talksOfYear (ts : List Talk) (y : Nat) : List Talk :=
  ts.filter (fun t => t.date.year == y)

/-- Python `f"{n:0{width}d}"` for a nonnegative `n`: decimal digits
left-padded with zeros to at least `width` characters. -/
def padNum (n : Nat) (width : Nat) : String :=
  let s := toString n
  String.mk (List.replicate (width - s.length) '0') ++ s

/-- `padding = 3 if num_slides >= 100 else 2;
highlight_img = f"slide-{highlight:0{padding}d}.png"`. -/
def highlightImg (numSlides highlight : Nat) : String :=
  let padding := if numSlides ≥ 100 then 3 else 2
  "slide-" ++ padNum highlight padding ++ ".png"

/-- `html.startswith(pre)`. -/
def strStartsWith (pre s : String) : Bool := pre.data.isPrefixOf s.data

/-- `html.endswith(suf)`. -/
def strEndsWith (suf s : String) : Bool := suf.data.isSuffixOf s.data

/-- `TalkProcessor.markdown_to_html`: render markdown (the external
`markdown.markdown` library is the parameter `render`), then strip the
first 3 and last 4 characters (`html[3:-4]`) when the result starts with
`<p>` and ends with `</p>`. -/
def markdown_to_html (render : String → String) (text : String) : String :=
  let html := render text
  if strStartsWith "<p>" html && strEndsWith "</p>" html then
    String.mk ((html.data.drop 3).take (html.data.length - 7))
  else html

/-- The links string: PDF link, plus a Video link when `video` is truthy
(Python `if video:` — an empty string is falsy). -/
def linksFor (t : Talk) : String :=
  let links := "<a href=\"" ++ t.handle ++ "/" ++ t.pdf ++ "\">PDF</a>"
  match t.video with
  | some v =>
      if v.isEmpty then links
      else links ++ ", <a href=\"" ++ v ++ "\">Video</a>"
  | none => links

/-- The year-heading list item. -/
def yearHeading (y : Nat) : String :=
  "            <li class=\"year-heading\">" ++ toString y ++ "</li>"

/-- One talk's `<li class="talk-entry">` block, exactly as the f-string
builds it; `numSlides` is the count of `slide-*.png` files in the talk's
output directory (the glob). -/
def talkEntry (render : String → String) (numSlides : String → Nat) (t : Talk) : String :=
  let description_html := markdown_to_html render t.description
  let highlight_img := highlightImg (numSlides t.handle) t.highlight
  let links := linksFor t
  "            <li class=\"talk-entry\">\n" ++
  "                <a href=\"" ++ t.handle ++ "/index.html\">" ++ t.title ++ "</a>  (" ++ links ++ ")\n" ++
  "                <p class=\"talk-desc\">\n" ++
  "                    " ++ description_html ++ "\n" ++
  "                </p>\n" ++
  "                <figure>\n" ++
  "                    <a href=\"" ++ t.handle ++ "/index.html\" class=\"img-link\"><img src=\"" ++
      t.handle ++ "/" ++ highlight_img ++ "\"></img></a>\n" ++
  "                </figure>\n" ++
  "            </li>"

/-- `all_entries`: for each year in descending order, the year heading
followed by that year's talk entries. -/
def allEntries (render : String → String) (numSlides : String → Nat)
    (processed : List Talk) : List String :=
  let sorted := sortTalksDesc processed
  ((sortNatDesc (yearsOf sorted)).map
    (fun y => yearHeading y :: (talksOfYear sorted y).map (talkEntry render numSlides))).flatten

/-- `talks_html` wrapped in the `<ol>`. -/
def talksHtmlOf (entries : List String) : String :=
  "        <ol type=\"1\">\n" ++ String.intercalate "\n" entries ++ "\n        </ol>"

/-- Split a list at the first occurrence of `pat`:
`splitFirst pat s = some (pre, post)` with `s = pre ++ pat ++ post` and no
occurrence of `pat` starting inside `pre`. -/
def splitFirst (pat : List Char) : List Char → Option (List Char × List Char)
  | [] => if pat.isEmpty then some ([], []) else none
  | c :: rest =>
      if pat.isPrefixOf (c :: rest) then some ([], (c :: rest).drop pat.length)
      else
        match splitFirst pat rest with
        | some (pre, post) => some (c :: pre, post)
        | none => none

/-- `re.sub(openT + '(.*?)' + closeT, repl, s, flags=re.DOTALL)` for a
constant replacement `repl`: repeatedly find the leftmost `openT`, the
nearest following `closeT` (lazy group), replace the whole match and
continue after it. Fuel-driven; `length + 1` fuel always suffices. -/
def reSubDelimAux (openT closeT repl : List Char) :
    Nat → List Char → List Char
  | 0, s => s
  | fuel + 1, s =>
      match splitFirst openT s with
      | none => s
      | some (pre, rest) =>
          match splitFirst closeT rest with
          | none => s
          | some (_, post) =>
              pre ++ repl ++ reSubDelimAux openT closeT repl fuel post

/-- String-level wrapper for `reSubDelimAux`. -/
def reSubDelim (openT closeT repl s : String) : String :=
  String.mk (reSubDelimAux openT.data closeT.data repl.data (s.data.length + 1) s.data)

def sectionOpenTag : String := "<section id=\"talks-by-year\" class=\"level1\">"

def sectionCloseTag : String := "</section>"

/-- Result of `generate_landing_page`: new batch state, the landing-page
content written to `output_dir/index.html` (`none` = nothing written), and
the returned boolean. -/
structure RenderResult where
  state : BatchState
  page : Option String
  ok : Bool
deriving Repr

/-- `TalkProcessor.generate_landing_page`. `template` is the content of
`templates/landing.html` when that file exists; `now` is
`datetime.now().strftime('%a %b %d %Y')`. -/
def generate_landing_page (st : BatchState) (template : Option String)
    (render : String → String) (numSlides : String → Nat) (now : String) :
    RenderResult :=
  match template with
  | none =>
      { state := st.addError "Template file not found: templates/landing.html",
        page := none, ok := false }
  | some tpl =>
      let entries := allEntries render numSlides st.processed_talks
      let talks_html := talksHtmlOf entries
      let updated := reSubDelim sectionOpenTag sectionCloseTag
        (sectionOpenTag ++ "\n" ++ talks_html ++ "\n    " ++ sectionCloseTag) tpl
      let updated2 := reSubDelim "Last updated:" "</div>"
        ("Last updated: " ++ now ++ "\n</div>") updated
      { state := st, page := some updated2, ok := true }

/-! ## Concurrent orchestrator (`process_all`), modelled as a fold over the
units in an arbitrary dispatch order. -/

/-- One iteration of the `as_completed` loop: either the future raised and
the catch-all records the error, or `process_talk` ran normally. -/
def runUnit (force : Bool) (st : BatchState) (p : TalkUnit × OutState) :
    BatchState × OutState :=
  match p.1.unexpected with
  | some e =>
      (st.addError ("Unexpected error processing " ++ p.1.handle ++ ": " ++ e), p.2)
  | none =>
      let r := process_talk force p.1 p.2 st
      (r.state, r.out)

/-- Process every unit, threading the batch state and collecting each
unit's final output-directory state. -/
def processUnits (force : Bool) (st : BatchState) :
    List (TalkUnit × OutState) → BatchState × List OutState
  | [] => (st, [])
  | p :: rest =>
      let s1 := runUnit force st p
      let s2 := processUnits force s1.1 rest
      (s2.1, s1.2 :: s2.2)

/-- `TalkProcessor.process_all` after discovery: run every unit, then
render the landing page iff at least one talk is listable. -/
def process_all (force : Bool) (units : List (TalkUnit × OutState))
    (st : BatchState) (template : Option String) (render : String → String)
    (numSlides : String → Nat) (now : String) :
    BatchState × List OutState × Option String :=
  let s1 := processUnits force st units
  if s1.1.processed_talks.isEmpty then (s1.1, s1.2, none)
  else
    let r := generate_landing_page s1.1 template render numSlides now
    (r.state, s1.2, r.page)

/-- One whole run of the script (`main` → `process_all`) starting from the
fresh `TalkProcessor` state. -/
def runPipeline (force : Bool) (units : List (TalkUnit × OutState))
    (template : Option String) (render : String → String)
    (numSlides : String → Nat) (now : String) :
    BatchState × List OutState × Option String :=
  process_all force units BatchState.init template render numSlides now

/-! ## Proof-side definitions: example inputs and derived notions -/

/-! ## Example inputs used by the witnesses -/

def exRaw : RawTalk :=
  { title := some "Example Talk", pdf := some "talk.pdf",
    description := some "A talk", highlight := some 3,
    date := some ⟨2023, 5, 1⟩, video := none }

def exMeta : Talk :=
  { title := "Example Talk", pdf := "talk.pdf", description := "A talk",
    highlight := 3, date := ⟨2023, 5, 1⟩, video := none, handle := "" }

def exUnit : TalkUnit :=
  { handle := "ex", metadataExists := true,
    metadataContent := .talkSection exRaw, pdfExists := true,
    convResult := .success "done", unexpected := none }

def exRawNoDate : RawTalk := { exRaw with date := none }

def exUnitBad : TalkUnit := { exUnit with metadataContent := .talkSection exRawNoDate }

def exUnitConvFail : TalkUnit := { exUnit with convResult := .failure "boom" }

/-- Whether `pat` occurs as a substring of `s`. -/
def strContains (pat s : String) : Bool := (splitFirst pat.data s.data).isSome

/-- The rendered HTML of a two-paragraph markdown description. -/
def twoParaHtml : String := "<p>a</p>\n<p>b</p>"

/-- Date-descending order between talks: `a` is dated no earlier than `b`. -/
def dge (a b : Talk) : Prop := TDate.ble b.date a.date = true

/-- The fold that builds the `talks_by_year` key list. -/
def yearStep (acc : List Nat) (t : Talk) : List Nat :=
  if t.date.year ∈ acc then acc else acc ++ [t.date.year]

/-! The three talks of the concrete example (A: 2023-01-01, B: 2024-06-01,
C: 2023-12-31). -/

def exTalkA : Talk :=
  { title := "talk A", pdf := "a.pdf", description := "a", highlight := 1,
    date := ⟨2023, 1, 1⟩, video := none, handle := "a" }

def exTalkB : Talk :=
  { title := "talk B", pdf := "b.pdf", description := "b", highlight := 1,
    date := ⟨2024, 6, 1⟩, video := none, handle := "b" }

def exTalkC : Talk :=
  { title := "talk C", pdf := "c.pdf", description := "c", highlight := 1,
    date := ⟨2023, 12, 31⟩, video := none, handle := "c" }

def exUnitExc : TalkUnit :=
  { exUnit with handle := "bad", unexpected := some "ZeroDivisionError" }

/-- Placeholder descriptor for `Option.getD`; never reached when the
metadata is known to load. -/
def dummyTalk : Talk :=
  { title := "", pdf := "", description := "", highlight := 0,
    date := ⟨0, 0, 0⟩, video := none, handle := "" }

/-- The descriptor of a unit whose metadata is known to load. -/
def TalkUnit.metaD (u : TalkUnit) : Talk := u.meta?.getD dummyTalk

/-- The output-directory state a fresh unit ends a no-force run with:
unchanged if it was already complete, otherwise directory + index marker
(the conversion succeeded). -/
def freshOut (p : TalkUnit × OutState) : OutState :=
  if is_talk_processed p.2 then p.2 else ⟨true, true⟩

/-- The unit list of a second run: the same units, each paired with its
output state after the first run. -/
def secondUnits (units : List (TalkUnit × OutState)) (outs : List OutState) :
    List (TalkUnit × OutState) :=
  (units.map Prod.fst).zip outs

def cxTpl : String := "<div>Last updated: old</div>"

def cxOuts : List OutState := (runPipeline false [(exUnit, ⟨false, false⟩)]
  (some cxTpl) (fun s => s) (fun _ => 0) "Mon Jan 01 2024").2.1

/-! ## Basic lemmas about metadata loading and `process_talk` -/

theorem extract_isSome_of_firstMissing_none (r : RawTalk) (h : firstMissing r = none) :
    ∃ t, r.extract = some t := by
  cases ht : r.title <;> cases hp : r.pdf <;> cases hd : r.description <;>
    cases hh : r.highlight <;> cases hdt : r.date <;>
    simp_all [firstMissing, RawTalk.extract]

theorem extract_none_of_firstMissing_some (r : RawTalk) (f : String)
    (h : firstMissing r = some f) : r.extract = none := by
  cases ht : r.title <;> cases hp : r.pdf <;> cases hd : r.description <;>
    cases hh : r.highlight <;> cases hdt : r.date <;>
    simp_all [firstMissing, RawTalk.extract]

theorem meta?_metadataExists {u : TalkUnit} {m : Talk} (h : u.meta? = some m) :
    u.metadataExists = true := by
  unfold TalkUnit.meta? at h
  by_cases hex : u.metadataExists
  · exact hex
  · simp [hex] at h

theorem parse_metadata_of_valid (st : BatchState) (name : String) (c : YamlLoad) (m : Talk)
    (h : c.valid? = some m) :
    parse_metadata st name c = (st, some m) := by
  cases c with
  | parseError msg => simp [YamlLoad.valid?] at h
  | emptyDoc => simp [YamlLoad.valid?] at h
  | noTalk => simp [YamlLoad.valid?] at h
  | talkSection r =>
    have h' : (if firstMissing r = none then r.extract else none) = some m := h
    by_cases hf : firstMissing r = none
    · rw [if_pos hf] at h'
      simp [parse_metadata, hf, h']
    · rw [if_neg hf] at h'
      exact absurd h' (by simp)

theorem meta?_valid {u : TalkUnit} {m : Talk} (h : u.meta? = some m) :
    u.metadataContent.valid? = some m := by
  unfold TalkUnit.meta? at h
  by_cases hex : u.metadataExists
  · rwa [hex, if_pos rfl] at h
  · simp [hex] at h

theorem parse_metadata_of_meta? (st : BatchState) (u : TalkUnit) (m : Talk)
    (h : u.meta? = some m) :
    parse_metadata st u.metadataName u.metadataContent = (st, some m) :=
  parse_metadata_of_valid st u.metadataName u.metadataContent m (meta?_valid h)

/-- The skip path of `process_talk`: with loadable metadata, a completed
output directory and force off, the unit is recorded as skipped, its
metadata (with handle) is appended to the processed collection, the call
returns `True`, and nothing is touched on disk. -/
theorem process_talk_skip (u : TalkUnit) (o : OutState) (st : BatchState) (m : Talk)
    (h : u.meta? = some m) (hdone : is_talk_processed o = true) :
    process_talk false u o st =
      { state := { st with
          skipped_talks := st.skipped_talks ++ [u.handle],
          processed_talks := st.processed_talks ++ [m.withHandle u.handle] },
        ok := true, effects := [], out := o } := by
  unfold process_talk
  rw [meta?_metadataExists h, parse_metadata_of_meta? st u m h]
  simp [hdone]

/-- With force on and the PDF present, the completion check is bypassed:
the conversion is invoked and the unit is never recorded as skipped. -/
theorem process_talk_force (u : TalkUnit) (o : OutState) (st : BatchState) (m : Talk)
    (h : u.meta? = some m) (hpdf : u.pdfExists = true) :
    Effect.runConv ∈ (process_talk true u o st).effects ∧
    (process_talk true u o st).state.skipped_talks = st.skipped_talks := by
  unfold process_talk
  rw [meta?_metadataExists h, parse_metadata_of_meta? st u m h]
  simp only [Bool.not_true, Bool.false_and, if_false, hpdf, if_true]
  cases hc : u.convResult <;> simp [BatchState.addError]

/-- A unit whose metadata is missing or invalid fails before the
completion check: one error is appended, nothing else changes. -/
theorem process_talk_badMeta (force : Bool) (u : TalkUnit) (o : OutState) (st : BatchState)
    (h : u.meta? = none) :
    ∃ msg, process_talk force u o st =
      { state := st.addError msg, ok := false, effects := [], out := o } := by
  unfold TalkUnit.meta? at h
  by_cases hex : u.metadataExists
  · rw [hex, if_pos rfl] at h
    unfold process_talk
    rw [hex]
    cases hc : u.metadataContent with
    | parseError msg =>
      refine ⟨"Error parsing " ++ u.metadataName ++ ": " ++ msg, ?_⟩
      simp [parse_metadata]
    | emptyDoc =>
      refine ⟨"Error parsing " ++ u.metadataName ++ ": Missing 'talk' section in metadata", ?_⟩
      simp [parse_metadata]
    | noTalk =>
      refine ⟨"Error parsing " ++ u.metadataName ++ ": Missing 'talk' section in metadata", ?_⟩
      simp [parse_metadata]
    | talkSection r =>
      rw [hc] at h
      have h' : (if firstMissing r = none then r.extract else none) = none := h
      by_cases hf : firstMissing r = none
      · rw [if_pos hf] at h'
        obtain ⟨t, ht⟩ := extract_isSome_of_firstMissing_none r hf
        rw [ht] at h'
        exact absurd h' (by simp)
      · obtain ⟨f, hf2⟩ := Option.ne_none_iff_exists'.mp hf
        refine ⟨"Error parsing " ++ u.metadataName ++ ": Missing required field: " ++ f, ?_⟩
        simp [parse_metadata, hf2]
  · refine ⟨"No metadata.yml found in " ++ u.handle, ?_⟩
    unfold process_talk
    simp [hex]

/-- The conversion-failure path: metadata loads, the unit is not skipped,
the PDF exists, `./script.sh` exits non-zero. The output directory is
created (mkdir strictly before the conversion call), no index marker
appears, and the stderr is recorded as an error. -/
theorem process_talk_convFail (force : Bool) (u : TalkUnit) (o : OutState)
    (st : BatchState) (m : Talk) (err : String)
    (h : u.meta? = some m) (hskip : (!force && is_talk_processed o) = false)
    (hpdf : u.pdfExists = true) (hconv : u.convResult = .failure err) :
    process_talk force u o st =
      { state := st.addError ("Error processing " ++ u.handle ++ ": " ++ err),
        ok := false, effects := [.mkdirOut, .runConv],
        out := { o with isDir := true } } := by
  unfold process_talk
  rw [meta?_metadataExists h, parse_metadata_of_meta? st u m h]
  simp [hskip, hpdf, hconv]

/-- The full processing path: metadata loads, the unit is not skipped, the
PDF exists, `./script.sh` succeeds. The metadata (with handle) is appended
to the processed collection and the output directory now bears the index
marker. -/
theorem process_talk_convSuccess (force : Bool) (u : TalkUnit) (o : OutState)
    (st : BatchState) (m : Talk) (outp : String)
    (h : u.meta? = some m) (hskip : (!force && is_talk_processed o) = false)
    (hpdf : u.pdfExists = true) (hconv : u.convResult = .success outp) :
    process_talk force u o st =
      { state := { st with
          processed_talks := st.processed_talks ++ [m.withHandle u.handle] },
        ok := true, effects := [.mkdirOut, .runConv, .copyPdf],
        out := { indexExists := true, isDir := true } } := by
  unfold process_talk
  rw [meta?_metadataExists h, parse_metadata_of_meta? st u m h]
  simp [hskip, hpdf, hconv]


/-! ## Claims -/

/-- C1: with force off, a unit whose output subdirectory is a directory
containing the index marker is not reprocessed: its handle is recorded as
skipped, its metadata (with handle assigned) is still appended to the
processed collection, the call returns success and performs no effect;
with force on the completion check is bypassed, the unit is never recorded
as skipped and (its PDF being present) the conversion is invoked. -/
theorem skip_completed_unless_force (u : TalkUnit) (o : OutState) (st : BatchState)
    (m : Talk) (hmeta : u.meta? = some m) (hdone : is_talk_processed o = true) :
    (process_talk false u o st =
      { state := { st with
          skipped_talks := st.skipped_talks ++ [u.handle],
          processed_talks := st.processed_talks ++ [m.withHandle u.handle] },
        ok := true, effects := [], out := o }) ∧
    (u.pdfExists = true →
      Effect.runConv ∈ (process_talk true u o st).effects ∧
      (process_talk true u o st).state.skipped_talks = st.skipped_talks) :=
  ⟨process_talk_skip u o st m hmeta hdone,
   fun hpdf => process_talk_force u o st m hmeta hpdf⟩

theorem skip_completed_unless_force_witness :
    (process_talk false exUnit ⟨true, true⟩ BatchState.init).state.skipped_talks = ["ex"] ∧
    Effect.runConv ∈ (process_talk true exUnit ⟨true, true⟩ BatchState.init).effects := by
  have hh := skip_completed_unless_force exUnit ⟨true, true⟩ BatchState.init exMeta
    (by decide) (by decide)
  exact ⟨by rw [hh.1]; rfl, (hh.2 (by decide)).1⟩

/-- C9: metadata loading precedes the completion check: a unit whose
metadata file is missing or invalid is recorded as an error (and excluded
from the listing) even when its output directory bears the completion
marker and force is off — it is never recorded as skipped. -/
theorem bad_metadata_never_skipped (u : TalkUnit) (o : OutState) (st : BatchState)
    (hmeta : u.meta? = none) (_hdone : is_talk_processed o = true) :
    ∃ msg,
      process_talk false u o st =
        { state := st.addError msg, ok := false, effects := [], out := o } ∧
      (process_talk false u o st).state.skipped_talks = st.skipped_talks ∧
      (process_talk false u o st).state.processed_talks = st.processed_talks ∧
      (process_talk false u o st).ok = false := by
  obtain ⟨msg, hres⟩ := process_talk_badMeta false u o st hmeta
  refine ⟨msg, hres, ?_, ?_, ?_⟩ <;> rw [hres] <;> simp [BatchState.addError]

theorem bad_metadata_never_skipped_witness :
    (process_talk false exUnitBad ⟨true, true⟩ BatchState.init).state.skipped_talks = [] ∧
    (process_talk false exUnitBad ⟨true, true⟩ BatchState.init).state.processed_talks = [] := by
  obtain ⟨msg, _, h2, h3, _⟩ :=
    bad_metadata_never_skipped exUnitBad ⟨true, true⟩ BatchState.init (by decide) (by decide)
  exact ⟨h2.trans rfl, h3.trans rfl⟩

/-- C10: creating the output subdirectory does not mark a unit complete:
the completion check requires the index marker itself; `process_talk`
creates the directory before invoking the conversion, so a unit whose
conversion fails ends with the directory present but no index marker, is
still treated as unprocessed, and a later run without force reaches the
conversion again. -/
theorem mkdir_does_not_complete (u : TalkUnit) (o : OutState) (st : BatchState)
    (m : Talk) (err : String) (hmeta : u.meta? = some m)
    (hidx : o.indexExists = false) (hpdf : u.pdfExists = true)
    (hconv : u.convResult = .failure err) :
    (∀ o' : OutState, o'.indexExists = false → is_talk_processed o' = false) ∧
    (process_talk false u o st).effects = [Effect.mkdirOut, Effect.runConv] ∧
    (process_talk false u o st).out = { indexExists := false, isDir := true } ∧
    is_talk_processed (process_talk false u o st).out = false ∧
    (∀ st₂ : BatchState,
      Effect.runConv ∈ (process_talk false u (process_talk false u o st).out st₂).effects) := by
  have hskip : (!false && is_talk_processed o) = false := by
    simp [is_talk_processed, hidx]
  have hres := process_talk_convFail false u o st m err hmeta hskip hpdf hconv
  have hout : (process_talk false u o st).out = { indexExists := false, isDir := true } := by
    rw [hres]; simp [← hidx]
  refine ⟨fun o' h => by simp [is_talk_processed, h], by rw [hres], hout, ?_, ?_⟩
  · rw [hout]; simp [is_talk_processed]
  · intro st₂
    rw [hout]
    have hskip₂ : (!false && is_talk_processed (⟨false, true⟩ : OutState)) = false := by
      simp [is_talk_processed]
    rw [process_talk_convFail false u ⟨false, true⟩ st₂ m err hmeta hskip₂ hpdf hconv]
    simp

theorem mkdir_does_not_complete_witness :
    (process_talk false exUnitConvFail ⟨false, false⟩ BatchState.init).out =
      { indexExists := false, isDir := true } ∧
    is_talk_processed (process_talk false exUnitConvFail ⟨false, false⟩ BatchState.init).out = false := by
  have hh := mkdir_does_not_complete exUnitConvFail ⟨false, false⟩ BatchState.init exMeta
    "boom" (by decide) rfl rfl rfl
  exact ⟨hh.2.2.1, hh.2.2.2.1⟩

/-- C4: `parse_metadata` never escapes with an exception: it either
returns the descriptor with the state untouched, or appends exactly one
error message and returns `None`; when the talk section is present but a
required field is missing, the recorded message names the first missing
field in the order title, pdf, description, highlight, date (which is
what `firstMissing` computes). -/
theorem parse_metadata_total (st : BatchState) (name : String) (file : YamlLoad) :
    ((∃ m, parse_metadata st name file = (st, some m)) ∨
     (∃ msg, parse_metadata st name file = (st.addError msg, none))) ∧
    (∀ r f, file = .talkSection r → firstMissing r = some f →
      parse_metadata st name file =
        (st.addError ("Error parsing " ++ name ++ ": Missing required field: " ++ f), none)) := by
  constructor
  · cases file with
    | parseError msg =>
      exact .inr ⟨"Error parsing " ++ name ++ ": " ++ msg, by simp [parse_metadata]⟩
    | emptyDoc =>
      exact .inr ⟨"Error parsing " ++ name ++ ": Missing 'talk' section in metadata",
        by simp [parse_metadata]⟩
    | noTalk =>
      exact .inr ⟨"Error parsing " ++ name ++ ": Missing 'talk' section in metadata",
        by simp [parse_metadata]⟩
    | talkSection r =>
      by_cases hf : firstMissing r = none
      · obtain ⟨t, ht⟩ := extract_isSome_of_firstMissing_none r hf
        exact .inl ⟨t, by simp [parse_metadata, hf, ht]⟩
      · obtain ⟨f, hf2⟩ := Option.ne_none_iff_exists'.mp hf
        exact .inr ⟨"Error parsing " ++ name ++ ": Missing required field: " ++ f,
          by simp [parse_metadata, hf2]⟩
  · intro r f heq hf
    subst heq
    simp [parse_metadata, hf]

theorem parse_metadata_total_witness :
    parse_metadata BatchState.init "ex/metadata.yml" (.talkSection exRawNoDate) =
      (BatchState.init.addError
        ("Error parsing " ++ "ex/metadata.yml" ++ ": Missing required field: " ++ "date"), none) :=
  (parse_metadata_total BatchState.init "ex/metadata.yml" (.talkSection exRawNoDate)).2
    exRawNoDate "date" rfl (by decide)

/-- C5: the highlight image filename pads the highlight index to 2 digits
when the unit has fewer than 100 rendered slide images and to 3 digits
otherwise (`padNum h w` pads to minimum width `w`); with 57 slides and
highlight 3 it is `slide-03.png`, with 120 slides `slide-003.png`. -/
theorem highlight_padding (n h : Nat) :
    (n < 100 → highlightImg n h = "slide-" ++ padNum h 2 ++ ".png") ∧
    (100 ≤ n → highlightImg n h = "slide-" ++ padNum h 3 ++ ".png") ∧
    (∀ w, (padNum h w).length = max w (toString h).length) ∧
    highlightImg 57 3 = "slide-03.png" ∧
    highlightImg 120 3 = "slide-003.png" := by
  refine ⟨?_, ?_, ?_, by decide, by decide⟩
  · intro hn
    have : ¬ n ≥ 100 := by omega
    simp [highlightImg, this]
  · intro hn
    have : n ≥ 100 := hn
    simp [highlightImg, this]
  · intro w
    unfold padNum
    simp only [String.length_append]
    show (List.replicate (w - (toString h).length) '0').length + (toString h).length =
      max w (toString h).length
    rw [List.length_replicate]
    omega

theorem highlight_padding_witness :
    highlightImg 57 3 = "slide-" ++ padNum 3 2 ++ ".png" :=
  (highlight_padding 57 3).1 (by decide)

/-- C7: when the landing template is missing, `generate_landing_page`
records exactly one error, writes no output document (the landing page is
left unchanged and the computed listing is discarded), and touches neither
the processed nor the skipped collections; with a template present a page
is always written. -/
theorem template_missing_no_write (st : BatchState) (render : String → String)
    (numSlides : String → Nat) (now : String) :
    generate_landing_page st none render numSlides now =
      { state := st.addError "Template file not found: templates/landing.html",
        page := none, ok := false } ∧
    (generate_landing_page st none render numSlides now).state.processed_talks
      = st.processed_talks ∧
    (generate_landing_page st none render numSlides now).state.skipped_talks
      = st.skipped_talks ∧
    (∀ tpl, ∃ pg, (generate_landing_page st (some tpl) render numSlides now).page = some pg) := by
  refine ⟨rfl, ?_, ?_, fun tpl => ⟨_, rfl⟩⟩ <;> simp [generate_landing_page, BatchState.addError]

/-! ## C8: the paragraph-wrapper strip in `markdown_to_html` -/


/-- Removing the first 3 and last 4 characters inverts wrapping with
`<p>`/`</p>`: character-list form of the strip in `markdown_to_html`. -/
theorem strip_recompose (l : List Char)
    (h1 : (['<', 'p', '>'] : List Char) <+: l)
    (h2 : (['<', '/', 'p', '>'] : List Char) <:+ l) :
    ['<', 'p', '>'] ++ ((l.drop 3).take (l.length - 7)) ++ ['<', '/', 'p', '>'] = l := by
  obtain ⟨t, ht⟩ := h1
  obtain ⟨s, hs⟩ := h2
  have heq : (['<', 'p', '>'] : List Char) ++ t = s ++ ['<', '/', 'p', '>'] := by
    rw [ht, hs]
  rw [← ht]
  rcases List.append_eq_append_iff.mp heq with ⟨a', ha1, ha2⟩ | ⟨c', hc1, hc2⟩
  · subst ha2
    have hdrop : ((['<', 'p', '>'] : List Char) ++ (a' ++ ['<', '/', 'p', '>'])).drop 3 =
        a' ++ ['<', '/', 'p', '>'] :=
      List.drop_left ['<', 'p', '>'] (a' ++ ['<', '/', 'p', '>'])
    have hlen : ((['<', 'p', '>'] : List Char) ++ (a' ++ ['<', '/', 'p', '>'])).length - 7 =
        a'.length := by
      simp [List.length_append]
    rw [hdrop, hlen, List.take_append_of_le_length (Nat.le_refl _), List.take_length,
      List.append_assoc]
  · rcases s with _ | ⟨a, _ | ⟨b, _ | ⟨c, s'⟩⟩⟩
    · simp only [List.nil_append] at hc1
      subst hc1
      simp at hc2
    · simp only [List.cons_append, List.nil_append, List.cons.injEq] at hc1
      obtain ⟨ha, hc1'⟩ := hc1
      subst hc1'
      simp at hc2
    · simp only [List.cons_append, List.nil_append, List.cons.injEq] at hc1
      obtain ⟨ha, hb, hc1'⟩ := hc1
      subst hc1'
      simp at hc2
    · simp only [List.cons_append, List.cons.injEq] at hc1
      obtain ⟨ha, hb, hcc, habc⟩ := hc1
      obtain ⟨hs1, hc1'⟩ := List.append_eq_nil.mp habc.symm
      subst hs1
      subst hc1'
      simp only [List.nil_append] at hc2
      subst hc2
      decide

theorem markdown_to_html_data (render : String → String) (text : String)
    (h1 : strStartsWith "<p>" (render text) = true)
    (h2 : strEndsWith "</p>" (render text) = true) :
    markdown_to_html render text =
      String.mk (((render text).data.drop 3).take ((render text).data.length - 7)) := by
  unfold markdown_to_html
  simp [h1, h2]

/-- C8 (amended): the wrapping tags are stripped exactly when the rendered
HTML starts with `<p>` and ends with `</p>` (in which case the strip
removes precisely that wrapper: re-wrapping the output reproduces the
rendered HTML); when either end lacks the tag the output is the rendered
HTML unchanged. The check is purely on the two ends, not on the HTML
being a single paragraph. -/
theorem markdown_strip_iff_wrapped (render : String → String) (text : String) :
    (strStartsWith "<p>" (render text) = true → strEndsWith "</p>" (render text) = true →
      "<p>" ++ markdown_to_html render text ++ "</p>" = render text) ∧
    (strStartsWith "<p>" (render text) = false ∨ strEndsWith "</p>" (render text) = false →
      markdown_to_html render text = render text) := by
  constructor
  · intro h1 h2
    rw [markdown_to_html_data render text h1 h2]
    apply String.ext
    simp only [String.data_append]
    have hp : (("<p>" : String)).data.isPrefixOf (render text).data = true := h1
    have hsf : (("</p>" : String)).data.isSuffixOf (render text).data = true := h2
    have hpre : (['<', 'p', '>'] : List Char) <+: (render text).data :=
      List.isPrefixOf_iff_prefix.mp hp
    have hsuf : (['<', '/', 'p', '>'] : List Char) <:+ (render text).data :=
      List.isSuffixOf_iff_suffix.mp hsf
    have hlen : (render text).data.length = (render text).length := rfl
    exact strip_recompose (render text).data hpre hsuf
  · intro h
    unfold markdown_to_html
    rcases h with h | h <;> simp [h]

theorem markdown_strip_iff_wrapped_witness :
    "<p>" ++ markdown_to_html (fun _ => "<p>hello</p>") "hello" ++ "</p>" = "<p>hello</p>" :=
  (markdown_strip_iff_wrapped (fun _ => "<p>hello</p>") "hello").1 (by decide) (by decide)

/-- C8 counterexample: a rendered description made of two top-level
paragraphs (it contains `</p>\n<p>`) still starts with `<p>` and ends
with `</p>`, so `markdown_to_html` modifies it, splicing out the outer
tags across the paragraph boundary. -/
theorem markdown_strip_multipara_counterexample :
    strContains (String.mk ['<', '/', 'p', '>', '\n', '<', 'p', '>']) twoParaHtml = true ∧
    markdown_to_html (fun _ => twoParaHtml) (String.mk ['a', '\n', '\n', 'b']) ≠ twoParaHtml ∧
    markdown_to_html (fun _ => twoParaHtml) (String.mk ['a', '\n', '\n', 'b']) =
      String.mk ['a', '<', '/', 'p', '>', '\n', '<', 'p', '>', 'b'] := by decide

/-! ## C3: order of the listing -/

theorem TDate.ble_iff (a b : TDate) : TDate.ble a b = true ↔
    (a.year < b.year ∨ (a.year = b.year ∧
      (a.month < b.month ∨ (a.month = b.month ∧ a.day ≤ b.day)))) := by
  unfold TDate.ble
  by_cases h1 : a.year = b.year
  · by_cases h2 : a.month = b.month
    · simp [h1, h2]
    · simp [h1, h2]
  · by_cases h2 : a.month = b.month
    · simp [h1, h2]
    · simp [h1, h2]

theorem TDate.ble_refl (a : TDate) : TDate.ble a a = true := by
  rw [TDate.ble_iff]; omega

theorem TDate.ble_total (a b : TDate) :
    TDate.ble a b = true ∨ TDate.ble b a = true := by
  rw [TDate.ble_iff, TDate.ble_iff]; omega

theorem TDate.ble_trans {a b c : TDate} (h1 : TDate.ble a b = true)
    (h2 : TDate.ble b c = true) : TDate.ble a c = true := by
  rw [TDate.ble_iff] at h1 h2 ⊢; omega

theorem insertByDateDesc_perm (t : Talk) (l : List Talk) :
    (insertByDateDesc t l).Perm (t :: l) := by
  induction l with
  | nil => simp [insertByDateDesc]
  | cons h rest ih =>
    unfold insertByDateDesc
    by_cases hb : TDate.ble h.date t.date = true
    · simp [hb]
    · simp only [hb, if_false]
      exact ((ih.cons h).trans (List.Perm.swap t h rest))

theorem sortTalksDesc_perm (ts : List Talk) : (sortTalksDesc ts).Perm ts := by
  induction ts with
  | nil => simp [sortTalksDesc]
  | cons t rest ih =>
    exact (insertByDateDesc_perm t (sortTalksDesc rest)).trans (ih.cons t)


theorem insertByDateDesc_sorted (t : Talk) (l : List Talk)
    (hl : l.Pairwise dge) : (insertByDateDesc t l).Pairwise dge := by
  induction l with
  | nil => simp [insertByDateDesc, List.pairwise_cons]
  | cons h rest ih =>
    rw [List.pairwise_cons] at hl
    obtain ⟨hhead, hrest⟩ := hl
    unfold insertByDateDesc
    by_cases hb : TDate.ble h.date t.date = true
    · rw [if_pos hb, List.pairwise_cons]
      constructor
      · intro x hx
        rcases List.mem_cons.mp hx with rfl | hx
        · exact hb
        · exact TDate.ble_trans (hhead x hx) hb
      · rw [List.pairwise_cons]
        exact ⟨hhead, hrest⟩
    · rw [if_neg hb, List.pairwise_cons]
      constructor
      · intro x hx
        rcases List.mem_cons.mp ((insertByDateDesc_perm t rest).mem_iff.mp hx) with rfl | hx
        · rcases TDate.ble_total h.date x.date with hx2 | hx2
          · exact absurd hx2 hb
          · exact hx2
        · exact hhead x hx
      · exact ih hrest

theorem sortTalksDesc_sorted (ts : List Talk) :
    (sortTalksDesc ts).Pairwise dge := by
  induction ts with
  | nil => simp [sortTalksDesc]
  | cons t rest ih => exact insertByDateDesc_sorted t (sortTalksDesc rest) ih

theorem insertByDateDesc_filter_date (t : Talk) (l : List Talk) (d : TDate) :
    (insertByDateDesc t l).filter (fun x => decide (x.date = d)) =
    (t :: l).filter (fun x => decide (x.date = d)) := by
  induction l with
  | nil => rfl
  | cons h rest ih =>
    unfold insertByDateDesc
    by_cases hb : TDate.ble h.date t.date = true
    · simp [hb]
    · simp only [hb, if_false]
      by_cases hh : h.date = d <;> by_cases ht : t.date = d
      · exact absurd (hh.trans ht.symm ▸ TDate.ble_refl h.date) hb
      · simp [List.filter_cons, hh, ht, ih]
      · simp [List.filter_cons, hh, ht, ih]
      · simp [List.filter_cons, hh, ht, ih]

theorem sortTalksDesc_stable (ts : List Talk) (d : TDate) :
    (sortTalksDesc ts).filter (fun x => decide (x.date = d)) =
    ts.filter (fun x => decide (x.date = d)) := by
  induction ts with
  | nil => rfl
  | cons t rest ih =>
    show (insertByDateDesc t (sortTalksDesc rest)).filter _ = _
    rw [insertByDateDesc_filter_date, List.filter_cons, List.filter_cons, ih]

theorem insertNatDesc_perm (y : Nat) (l : List Nat) :
    (insertNatDesc y l).Perm (y :: l) := by
  induction l with
  | nil => simp [insertNatDesc]
  | cons h rest ih =>
    unfold insertNatDesc
    by_cases hb : h ≥ y
    · simp only [hb, if_true]
      exact ((ih.cons h).trans (List.Perm.swap y h rest))
    · simp [hb]

theorem sortNatDesc_perm (l : List Nat) : (sortNatDesc l).Perm l := by
  induction l with
  | nil => simp [sortNatDesc]
  | cons y rest ih =>
    exact (insertNatDesc_perm y (sortNatDesc rest)).trans (ih.cons y)

theorem insertNatDesc_sorted (y : Nat) (l : List Nat)
    (hl : l.Pairwise (· ≥ ·)) : (insertNatDesc y l).Pairwise (· ≥ ·) := by
  induction l with
  | nil => simp [insertNatDesc]
  | cons h rest ih =>
    rw [List.pairwise_cons] at hl
    obtain ⟨hhead, hrest⟩ := hl
    unfold insertNatDesc
    by_cases hb : h ≥ y
    · rw [if_pos hb, List.pairwise_cons]
      refine ⟨?_, ih hrest⟩
      intro x hx
      rcases List.mem_cons.mp ((insertNatDesc_perm y rest).mem_iff.mp hx) with rfl | hx
      · omega
      · exact hhead x hx
    · rw [if_neg hb, List.pairwise_cons]
      refine ⟨?_, ?_⟩
      · intro x hx
        rcases List.mem_cons.mp hx with rfl | hx
        · omega
        · have := hhead x hx
          omega
      · rw [List.pairwise_cons]
        exact ⟨hhead, hrest⟩

theorem sortNatDesc_sorted (l : List Nat) : (sortNatDesc l).Pairwise (· ≥ ·) := by
  induction l with
  | nil => simp [sortNatDesc]
  | cons y rest ih => exact insertNatDesc_sorted y (sortNatDesc rest) ih

theorem sortNatDesc_strict (l : List Nat) (h : l.Nodup) :
    (sortNatDesc l).Pairwise (· > ·) := by
  have hs := sortNatDesc_sorted l
  have hnd : (sortNatDesc l).Nodup := ((sortNatDesc_perm l).nodup_iff).mpr h
  exact (hs.and hnd).imp (fun hab => by omega)


theorem yearsOf_eq_foldl (ts : List Talk) :
    yearsOf ts = ts.foldl yearStep [] := rfl

theorem yearStep_foldl_mono (ts : List Talk) (acc : List Nat) (x : Nat)
    (h : x ∈ acc) : x ∈ ts.foldl yearStep acc := by
  induction ts generalizing acc with
  | nil => exact h
  | cons t rest ih =>
    rw [List.foldl_cons]
    apply ih
    by_cases hm : t.date.year ∈ acc <;> simp [yearStep, hm, h]

theorem yearStep_foldl_mem (ts : List Talk) (acc : List Nat) (t : Talk)
    (ht : t ∈ ts) : t.date.year ∈ ts.foldl yearStep acc := by
  induction ts generalizing acc with
  | nil => cases ht
  | cons u rest ih =>
    rw [List.foldl_cons]
    rcases List.mem_cons.mp ht with rfl | ht
    · apply yearStep_foldl_mono
      by_cases hm : t.date.year ∈ acc <;> simp [yearStep, hm]
    · exact ih (yearStep acc u) ht

theorem yearStep_foldl_nodup (ts : List Talk) (acc : List Nat)
    (h : acc.Nodup) : (ts.foldl yearStep acc).Nodup := by
  induction ts generalizing acc with
  | nil => exact h
  | cons t rest ih =>
    rw [List.foldl_cons]
    apply ih
    by_cases hm : t.date.year ∈ acc
    · simpa [yearStep, hm] using h
    · have hstep : yearStep acc t = acc ++ [t.date.year] := by simp [yearStep, hm]
      rw [hstep]
      exact ((List.perm_append_singleton t.date.year acc).nodup_iff).mpr
        (List.nodup_cons.mpr ⟨hm, h⟩)

theorem yearsOf_nodup (ts : List Talk) : (yearsOf ts).Nodup :=
  yearStep_foldl_nodup ts [] List.nodup_nil

theorem yearsOf_mem (ts : List Talk) (t : Talk) (ht : t ∈ ts) :
    t.date.year ∈ yearsOf ts :=
  yearStep_foldl_mem ts [] t ht

/-- Grouping by distinct keys covering every element partitions the list:
the concatenation of the per-year filters is a permutation of the list. -/
theorem flatten_filter_perm (l : List Talk) (ys : List Nat) (hnd : ys.Nodup)
    (hcov : ∀ t ∈ l, t.date.year ∈ ys) :
    ((ys.map (fun y => l.filter (fun t => t.date.year == y))).flatten).Perm l := by
  induction ys generalizing l with
  | nil =>
    cases l with
    | nil => simp
    | cons t rest => exact absurd (hcov t (by simp)) (by simp)
  | cons y ys ih =>
    rw [List.nodup_cons] at hnd
    obtain ⟨hy, hnd'⟩ := hnd
    simp only [List.map_cons, List.flatten_cons]
    have key : ys.map (fun y' => l.filter (fun t => t.date.year == y')) =
        ys.map (fun y' => (l.filter (fun t => !(t.date.year == y))).filter
          (fun t => t.date.year == y')) := by
      apply List.map_congr_left
      intro y' hy'
      have hne : y' ≠ y := fun hcontr => hy (hcontr ▸ hy')
      rw [List.filter_filter]
      apply List.filter_congr
      intro t _
      by_cases hty : t.date.year = y' <;> simp [hty, hne]
    rw [key]
    have hcov' : ∀ t ∈ l.filter (fun t => !(t.date.year == y)), t.date.year ∈ ys := by
      intro t htf
      rw [List.mem_filter] at htf
      obtain ⟨htl, hty⟩ := htf
      have := hcov t htl
      simp only [List.mem_cons] at this
      rcases this with h | h
      · simp [h] at hty
      · exact h
    have hperm := ih (l.filter (fun t => !(t.date.year == y))) hnd' hcov'
    exact (hperm.append_left (l.filter (fun t => t.date.year == y))).trans
      (List.filter_append_perm (fun t => t.date.year == y) l)


theorem groups_partition (ts : List Talk) :
    (((sortNatDesc (yearsOf (sortTalksDesc ts))).map
        (fun y => talksOfYear (sortTalksDesc ts) y)).flatten).Perm ts := by
  have hnd : (sortNatDesc (yearsOf (sortTalksDesc ts))).Nodup :=
    ((sortNatDesc_perm _).nodup_iff).mpr (yearsOf_nodup _)
  have hcov : ∀ t ∈ sortTalksDesc ts,
      t.date.year ∈ sortNatDesc (yearsOf (sortTalksDesc ts)) := by
    intro t ht
    exact ((sortNatDesc_perm _).mem_iff).mpr (yearsOf_mem _ t ht)
  exact (flatten_filter_perm (sortTalksDesc ts) _ hnd hcov).trans (sortTalksDesc_perm ts)


/-- C3: the listing sorts talks by date descending (stable: a permutation,
pairwise descending, and the original relative order of equal dates kept),
emits year groups in strictly descending year order, the groups partition
the talks, and on the three example talks the entries are
[2024 heading, B, 2023 heading, C, A]. -/
theorem listing_sorted_grouped (render : String → String) (ns : String → Nat)
    (ts : List Talk) (d : TDate) :
    (sortTalksDesc ts).Perm ts ∧
    (sortTalksDesc ts).Pairwise (fun a b => TDate.ble b.date a.date = true) ∧
    ((sortTalksDesc ts).filter (fun t => decide (t.date = d)) =
      ts.filter (fun t => decide (t.date = d))) ∧
    (sortNatDesc (yearsOf (sortTalksDesc ts))).Pairwise (· > ·) ∧
    (((sortNatDesc (yearsOf (sortTalksDesc ts))).map
        (fun y => talksOfYear (sortTalksDesc ts) y)).flatten).Perm ts ∧
    allEntries render ns [exTalkA, exTalkB, exTalkC] =
      [yearHeading 2024, talkEntry render ns exTalkB,
       yearHeading 2023, talkEntry render ns exTalkC, talkEntry render ns exTalkA] :=
  ⟨sortTalksDesc_perm ts, sortTalksDesc_sorted ts, sortTalksDesc_stable ts d,
   sortNatDesc_strict _ (yearsOf_nodup _), groups_partition ts, rfl⟩

/-! ## C2: error isolation in the orchestrator -/

/-- Whatever happens to a unit, `runUnit` only appends to the three
shared collections. -/
theorem process_talk_mono (force : Bool) (u : TalkUnit) (o : OutState) (st : BatchState) :
    ∃ dp ds de, (process_talk force u o st).state =
      ⟨st.processed_talks ++ dp, st.skipped_talks ++ ds, st.errors ++ de⟩ := by
  unfold process_talk
  by_cases hex : u.metadataExists
  · rcases (parse_metadata_total st u.metadataName u.metadataContent).1 with ⟨m, hm⟩ | ⟨msg, hmsg⟩
    · by_cases hskip : (!force && is_talk_processed o) = true
      · exact ⟨[m.withHandle u.handle], [u.handle], [], by simp [hex, hm, hskip]⟩
      · by_cases hpdf : u.pdfExists
        · cases hconv : u.convResult with
          | failure err =>
            exact ⟨[], [], ["Error processing " ++ u.handle ++ ": " ++ err],
              by simp [hex, hm, hskip, hpdf, hconv, BatchState.addError]⟩
          | success outp =>
            exact ⟨[m.withHandle u.handle], [], [],
              by simp [hex, hm, hskip, hpdf, hconv]⟩
        · exact ⟨[], [], ["PDF file not found: " ++ u.handle ++ "/" ++ m.pdf],
            by simp [hex, hm, hskip, hpdf, BatchState.addError]⟩
    · exact ⟨[], [], [msg], by simp [hex, hmsg, BatchState.addError]⟩
  · exact ⟨[], [], ["No metadata.yml found in " ++ u.handle],
      by simp [hex, BatchState.addError]⟩

theorem runUnit_mono (force : Bool) (st : BatchState) (p : TalkUnit × OutState) :
    ∃ dp ds de, (runUnit force st p).1 =
      ⟨st.processed_talks ++ dp, st.skipped_talks ++ ds, st.errors ++ de⟩ := by
  unfold runUnit
  cases hx : p.1.unexpected with
  | some e =>
    exact ⟨[], [], ["Unexpected error processing " ++ p.1.handle ++ ": " ++ e],
      by simp [BatchState.addError]⟩
  | none => exact process_talk_mono force p.1 p.2 st

theorem processUnits_mono (force : Bool) (st : BatchState)
    (units : List (TalkUnit × OutState)) :
    ∃ dp ds de, (processUnits force st units).1 =
      ⟨st.processed_talks ++ dp, st.skipped_talks ++ ds, st.errors ++ de⟩ := by
  induction units generalizing st with
  | nil => exact ⟨[], [], [], by simp [processUnits]⟩
  | cons p rest ih =>
    obtain ⟨dp1, ds1, de1, h1⟩ := runUnit_mono force st p
    obtain ⟨dp2, ds2, de2, h2⟩ := ih (runUnit force st p).1
    refine ⟨dp1 ++ dp2, ds1 ++ ds2, de1 ++ de2, ?_⟩
    show (processUnits force (runUnit force st p).1 rest).1 = _
    rw [h2, h1]
    simp

/-- If processing a given unit always appends exactly the message `msg` to
the errors, the message is in the batch errors after the whole loop. -/
theorem processUnits_mem_err (force : Bool) (st : BatchState)
    (units : List (TalkUnit × OutState)) (p : TalkUnit × OutState) (msg : String)
    (hmem : p ∈ units)
    (hstep : ∀ s : BatchState, (runUnit force s p).1.errors = s.errors ++ [msg]) :
    msg ∈ (processUnits force st units).1.errors := by
  induction units generalizing st with
  | nil => cases hmem
  | cons q rest ih =>
    rcases List.mem_cons.mp hmem with rfl | hmem
    · obtain ⟨dp, ds, de, hmono⟩ := processUnits_mono force (runUnit force st p).1 rest
      show msg ∈ (processUnits force (runUnit force st p).1 rest).1.errors
      rw [hmono]
      simp only [hstep st]
      simp
    · exact ih (runUnit force st q).1 hmem

/-- If processing a given unit always appends exactly the element `x` to
the processed collection, `x` is in it after the whole loop. -/
theorem processUnits_mem_processed (force : Bool) (st : BatchState)
    (units : List (TalkUnit × OutState)) (p : TalkUnit × OutState) (x : Talk)
    (hmem : p ∈ units)
    (hstep : ∀ s : BatchState,
      (runUnit force s p).1.processed_talks = s.processed_talks ++ [x]) :
    x ∈ (processUnits force st units).1.processed_talks := by
  induction units generalizing st with
  | nil => cases hmem
  | cons q rest ih =>
    rcases List.mem_cons.mp hmem with rfl | hmem
    · obtain ⟨dp, ds, de, hmono⟩ := processUnits_mono force (runUnit force st p).1 rest
      show x ∈ (processUnits force (runUnit force st p).1 rest).1.processed_talks
      rw [hmono]
      simp only [hstep st]
      simp
    · exact ih (runUnit force st q).1 hmem

/-- A listable unit (skippable, or fully processable) always appends its
descriptor-with-handle to the processed collection. -/
theorem runUnit_listable (force : Bool) (st : BatchState) (u : TalkUnit) (o : OutState)
    (m : Talk) (hu : u.unexpected = none) (hmeta : u.meta? = some m)
    (hlist : (force = false ∧ is_talk_processed o = true) ∨
      (u.pdfExists = true ∧ ∃ s, u.convResult = .success s)) :
    (runUnit force st (u, o)).1.processed_talks =
      st.processed_talks ++ [m.withHandle u.handle] := by
  unfold runUnit
  rw [hu]
  show (process_talk force u o st).state.processed_talks = _
  by_cases hskip : (!force && is_talk_processed o) = true
  · have hforce : force = false := by
      cases force
      · rfl
      · simp at hskip
    subst hforce
    have hdone : is_talk_processed o = true := by simpa using hskip
    rw [process_talk_skip u o st m hmeta hdone]
  · rcases hlist with ⟨hforce, hdone⟩ | ⟨hpdf, s, hconv⟩
    · subst hforce
      simp only [Bool.not_false, Bool.true_and] at hskip
      exact absurd hdone hskip
    · rw [process_talk_convSuccess force u o st m s hmeta
        (by simpa using hskip) hpdf hconv]

/-- An element of the processed collection yields an entry in
`all_entries`. -/
theorem mem_allEntries (render : String → String) (ns : String → Nat)
    (t : Talk) (ts : List Talk) (ht : t ∈ ts) :
    talkEntry render ns t ∈ allEntries render ns ts := by
  unfold allEntries
  rw [List.mem_flatten]
  have htsorted : t ∈ sortTalksDesc ts := (sortTalksDesc_perm ts).mem_iff.mpr ht
  have hyear : t.date.year ∈ sortNatDesc (yearsOf (sortTalksDesc ts)) :=
    ((sortNatDesc_perm _).mem_iff).mpr (yearsOf_mem _ t htsorted)
  refine ⟨yearHeading t.date.year ::
    (talksOfYear (sortTalksDesc ts) t.date.year).map (talkEntry render ns), ?_, ?_⟩
  · exact List.mem_map_of_mem _ hyear
  · apply List.mem_cons_of_mem
    apply List.mem_map_of_mem
    unfold talksOfYear
    rw [List.mem_filter]
    exact ⟨htsorted, by simp⟩

/-- C2: every exception escaping a unit (and every non-zero exit of the
conversion command) is recorded as an error in the batch state instead of
propagating, and every other listable unit — skipped or successfully
processed — still ends up in the processed collection and in the final
listing's entries. -/
theorem batch_error_isolation (force : Bool) (units : List (TalkUnit × OutState))
    (st : BatchState) (render : String → String) (ns : String → Nat) :
    (∀ u o e, (u, o) ∈ units → u.unexpected = some e →
      ("Unexpected error processing " ++ u.handle ++ ": " ++ e) ∈
        (processUnits force st units).1.errors) ∧
    (∀ u o m err, (u, o) ∈ units → u.unexpected = none → u.meta? = some m →
      u.convResult = .failure err → (!force && is_talk_processed o) = false →
      u.pdfExists = true →
      ("Error processing " ++ u.handle ++ ": " ++ err) ∈
        (processUnits force st units).1.errors) ∧
    (∀ u o m, (u, o) ∈ units → u.unexpected = none → u.meta? = some m →
      ((force = false ∧ is_talk_processed o = true) ∨
       (u.pdfExists = true ∧ ∃ s, u.convResult = .success s)) →
      m.withHandle u.handle ∈ (processUnits force st units).1.processed_talks ∧
      talkEntry render ns (m.withHandle u.handle) ∈
        allEntries render ns (processUnits force st units).1.processed_talks) := by
  refine ⟨?_, ?_, ?_⟩
  · intro u o e hmem he
    apply processUnits_mem_err force st units (u, o) _ hmem
    intro s
    simp [runUnit, he, BatchState.addError]
  · intro u o m err hmem hu hmeta hconv hskip hpdf
    apply processUnits_mem_err force st units (u, o) _ hmem
    intro s
    rw [runUnit]
    rw [hu]
    show (process_talk force u o s).state.errors = _
    rw [process_talk_convFail force u o s m err hmeta hskip hpdf hconv]
    simp [BatchState.addError]
  · intro u o m hmem hu hmeta hlist
    have hmemp := processUnits_mem_processed force st units (u, o) (m.withHandle u.handle)
      hmem (fun s => runUnit_listable force s u o m hu hmeta hlist)
    exact ⟨hmemp, mem_allEntries render ns _ _ hmemp⟩


theorem batch_error_isolation_witness :
    ("Unexpected error processing bad: ZeroDivisionError" ∈
      (processUnits false BatchState.init
        [(exUnitExc, ⟨false, false⟩), (exUnit, ⟨false, false⟩)]).1.errors) ∧
    (exMeta.withHandle "ex" ∈
      (processUnits false BatchState.init
        [(exUnitExc, ⟨false, false⟩), (exUnit, ⟨false, false⟩)]).1.processed_talks) := by
  have hh := batch_error_isolation false
    [(exUnitExc, ⟨false, false⟩), (exUnit, ⟨false, false⟩)]
    BatchState.init (fun s => s) (fun _ => 0)
  refine ⟨?_, ?_⟩
  · have := hh.1 exUnitExc ⟨false, false⟩ "ZeroDivisionError" (by decide) (by decide)
    simpa using this
  · have := (hh.2.2 exUnit ⟨false, false⟩ exMeta (by decide) (by decide) (by decide)
      (Or.inr ⟨by decide, "done", by decide⟩)).1
    simpa using this

/-! ## C6: running the pipeline twice -/


theorem is_talk_processed_freshOut (p : TalkUnit × OutState) :
    is_talk_processed (freshOut p) = true := by
  unfold freshOut
  by_cases h : is_talk_processed p.2 = true
  · rwa [if_pos h]
  · rw [if_neg h]
    rfl

theorem runUnit_fresh (st : BatchState) (u : TalkUnit) (o : OutState)
    (hu : u.unexpected = none) (hm : u.meta?.isSome = true)
    (hpdf : u.pdfExists = true) (hconv : ∃ s, u.convResult = .success s) :
    (runUnit false st (u, o)).1.processed_talks =
      st.processed_talks ++ [u.metaD.withHandle u.handle] ∧
    (runUnit false st (u, o)).2 = freshOut (u, o) := by
  obtain ⟨m, hmeta⟩ := Option.isSome_iff_exists.mp hm
  have hmD : u.metaD = m := by simp [TalkUnit.metaD, hmeta]
  unfold runUnit
  rw [hu]
  by_cases hdone : is_talk_processed o = true
  · constructor
    · show (process_talk false u o st).state.processed_talks = _
      rw [process_talk_skip u o st m hmeta hdone, hmD]
    · show (process_talk false u o st).out = _
      rw [process_talk_skip u o st m hmeta hdone]
      simp [freshOut, hdone]
  · obtain ⟨s, hconv'⟩ := hconv
    have hskip : (!false && is_talk_processed o) = false := by
      simp only [Bool.not_false, Bool.true_and]
      exact Bool.not_eq_true _ ▸ (by simpa using hdone)
    constructor
    · show (process_talk false u o st).state.processed_talks = _
      rw [process_talk_convSuccess false u o st m s hmeta hskip hpdf hconv', hmD]
    · show (process_talk false u o st).out = _
      rw [process_talk_convSuccess false u o st m s hmeta hskip hpdf hconv']
      simp [freshOut, hdone]

theorem runUnit_done (st : BatchState) (u : TalkUnit) (o : OutState)
    (hu : u.unexpected = none) (hm : u.meta?.isSome = true)
    (hdone : is_talk_processed o = true) :
    (runUnit false st (u, o)).1.processed_talks =
      st.processed_talks ++ [u.metaD.withHandle u.handle] ∧
    (runUnit false st (u, o)).1.skipped_talks =
      st.skipped_talks ++ [u.handle] := by
  obtain ⟨m, hmeta⟩ := Option.isSome_iff_exists.mp hm
  have hmD : u.metaD = m := by simp [TalkUnit.metaD, hmeta]
  unfold runUnit
  rw [hu]
  constructor
  · show (process_talk false u o st).state.processed_talks = _
    rw [process_talk_skip u o st m hmeta hdone, hmD]
  · show (process_talk false u o st).state.skipped_talks = _
    rw [process_talk_skip u o st m hmeta hdone]

theorem processUnits_all_fresh (units : List (TalkUnit × OutState)) (st : BatchState)
    (hfresh : ∀ p ∈ units, p.1.unexpected = none ∧ p.1.meta?.isSome = true ∧
      p.1.pdfExists = true ∧ ∃ s, p.1.convResult = .success s) :
    (processUnits false st units).1.processed_talks =
      st.processed_talks ++ units.map (fun p => p.1.metaD.withHandle p.1.handle) ∧
    (processUnits false st units).2 = units.map freshOut := by
  induction units generalizing st with
  | nil => simp [processUnits]
  | cons p rest ih =>
    have hp := hfresh p (by simp)
    obtain ⟨h1, h2⟩ := runUnit_fresh st p.1 p.2 hp.1 hp.2.1 hp.2.2.1 hp.2.2.2
    have hrest := ih (runUnit false st p).1 (fun q hq => hfresh q (List.mem_cons_of_mem p hq))
    constructor
    · show (processUnits false (runUnit false st p).1 rest).1.processed_talks = _
      rw [hrest.1, h1]
      simp
    · show (runUnit false st p).2 :: (processUnits false (runUnit false st p).1 rest).2 = _
      rw [hrest.2, h2]
      simp

theorem processUnits_all_done (units : List (TalkUnit × OutState)) (st : BatchState)
    (hdone : ∀ p ∈ units, p.1.unexpected = none ∧ p.1.meta?.isSome = true ∧
      is_talk_processed p.2 = true) :
    (processUnits false st units).1.processed_talks =
      st.processed_talks ++ units.map (fun p => p.1.metaD.withHandle p.1.handle) ∧
    (processUnits false st units).1.skipped_talks =
      st.skipped_talks ++ units.map (fun p => p.1.handle) := by
  induction units generalizing st with
  | nil => simp [processUnits]
  | cons p rest ih =>
    have hp := hdone p (by simp)
    obtain ⟨h1, h2⟩ := runUnit_done st p.1 p.2 hp.1 hp.2.1 hp.2.2
    have hrest := ih (runUnit false st p).1 (fun q hq => hdone q (List.mem_cons_of_mem p hq))
    constructor
    · show (processUnits false (runUnit false st p).1 rest).1.processed_talks = _
      rw [hrest.1, h1]
      simp
    · show (processUnits false (runUnit false st p).1 rest).1.skipped_talks = _
      rw [hrest.2, h2]
      simp

theorem generate_landing_page_keeps (st : BatchState) (tpl : Option String)
    (render : String → String) (ns : String → Nat) (now : String) :
    (generate_landing_page st tpl render ns now).state.processed_talks = st.processed_talks ∧
    (generate_landing_page st tpl render ns now).state.skipped_talks = st.skipped_talks := by
  cases tpl <;> simp [generate_landing_page, BatchState.addError]

theorem generate_landing_page_congr (st1 st2 : BatchState) (tpl : Option String)
    (render : String → String) (ns : String → Nat) (now : String)
    (h : st1.processed_talks = st2.processed_talks) :
    (generate_landing_page st1 tpl render ns now).page =
    (generate_landing_page st2 tpl render ns now).page := by
  cases tpl <;> simp [generate_landing_page, h]

theorem runPipeline_outs (force : Bool) (units : List (TalkUnit × OutState))
    (tpl : Option String) (render : String → String) (ns : String → Nat) (now : String) :
    (runPipeline force units tpl render ns now).2.1 =
      (processUnits force BatchState.init units).2 := by
  unfold runPipeline process_all
  by_cases h : (processUnits force BatchState.init units).1.processed_talks.isEmpty <;>
    simp [h]

theorem runPipeline_processed (force : Bool) (units : List (TalkUnit × OutState))
    (tpl : Option String) (render : String → String) (ns : String → Nat) (now : String) :
    (runPipeline force units tpl render ns now).1.processed_talks =
      (processUnits force BatchState.init units).1.processed_talks := by
  unfold runPipeline process_all
  by_cases h : (processUnits force BatchState.init units).1.processed_talks.isEmpty <;>
    simp [h, (generate_landing_page_keeps _ tpl render ns now).1]

theorem runPipeline_skipped (force : Bool) (units : List (TalkUnit × OutState))
    (tpl : Option String) (render : String → String) (ns : String → Nat) (now : String) :
    (runPipeline force units tpl render ns now).1.skipped_talks =
      (processUnits force BatchState.init units).1.skipped_talks := by
  unfold runPipeline process_all
  by_cases h : (processUnits force BatchState.init units).1.processed_talks.isEmpty <;>
    simp [h, (generate_landing_page_keeps _ tpl render ns now).2]

theorem runPipeline_page (force : Bool) (units : List (TalkUnit × OutState))
    (tpl : Option String) (render : String → String) (ns : String → Nat) (now : String) :
    (runPipeline force units tpl render ns now).2.2 =
      if (processUnits force BatchState.init units).1.processed_talks.isEmpty then none
      else (generate_landing_page (processUnits force BatchState.init units).1
        tpl render ns now).page := by
  unfold runPipeline process_all
  by_cases h : (processUnits force BatchState.init units).1.processed_talks.isEmpty <;>
    simp [h]

/-- C6 (amended): with no input changes and force off, the second run of
the pipeline (each unit paired with its output state from the first run)
records every unit as skipped, reproduces exactly the first run's
processed listing, and — when both runs format the same current date —
writes a byte-identical landing page. (Byte-identity cannot hold
unconditionally: the page embeds `datetime.now()`, see the
counterexample.) -/
theorem second_run_skips_all (units : List (TalkUnit × OutState))
    (tpl : Option String) (render : String → String) (ns : String → Nat)
    (now1 now2 : String)
    (hfresh : ∀ p ∈ units, p.1.unexpected = none ∧ p.1.meta?.isSome = true ∧
      p.1.pdfExists = true ∧ ∃ s, p.1.convResult = .success s) :
    (runPipeline false (secondUnits units (runPipeline false units tpl render ns now1).2.1)
        tpl render ns now2).1.skipped_talks = units.map (fun p => p.1.handle) ∧
    (runPipeline false (secondUnits units (runPipeline false units tpl render ns now1).2.1)
        tpl render ns now2).1.processed_talks =
      (runPipeline false units tpl render ns now1).1.processed_talks ∧
    (now1 = now2 →
      (runPipeline false (secondUnits units (runPipeline false units tpl render ns now1).2.1)
          tpl render ns now2).2.2 = (runPipeline false units tpl render ns now1).2.2) := by
  have h1 := processUnits_all_fresh units BatchState.init hfresh
  have houts : (runPipeline false units tpl render ns now1).2.1 = units.map freshOut :=
    (runPipeline_outs false units tpl render ns now1).trans h1.2
  have hunits2 : secondUnits units (runPipeline false units tpl render ns now1).2.1 =
      units.map (fun p => (p.1, freshOut p)) := by
    rw [secondUnits, houts, List.zip_map']
  have hfresh2 : ∀ q ∈ units.map (fun p => (p.1, freshOut p)),
      q.1.unexpected = none ∧ q.1.meta?.isSome = true ∧ is_talk_processed q.2 = true := by
    intro q hq
    rw [List.mem_map] at hq
    obtain ⟨p, hp, rfl⟩ := hq
    have := hfresh p hp
    exact ⟨this.1, this.2.1, is_talk_processed_freshOut p⟩
  have h2 := processUnits_all_done (units.map (fun p => (p.1, freshOut p))) BatchState.init hfresh2
  have hmaps : (units.map (fun p => (p.1, freshOut p))).map
      (fun q => q.1.metaD.withHandle q.1.handle) =
      units.map (fun p => p.1.metaD.withHandle p.1.handle) := by
    rw [List.map_map]
    rfl
  have hmaph : (units.map (fun p => (p.1, freshOut p))).map (fun q => q.1.handle) =
      units.map (fun p => p.1.handle) := by
    rw [List.map_map]
    rfl
  have hproc2 : (processUnits false BatchState.init
      (units.map (fun p => (p.1, freshOut p)))).1.processed_talks =
      (processUnits false BatchState.init units).1.processed_talks := by
    rw [h2.1, hmaps, h1.1]
  refine ⟨?_, ?_, ?_⟩
  · rw [hunits2, runPipeline_skipped, h2.2, hmaph]
    rfl
  · rw [hunits2, runPipeline_processed, runPipeline_processed, hproc2]
  · intro hnow
    subst hnow
    rw [hunits2, runPipeline_page, runPipeline_page, hproc2]
    by_cases hmt : (processUnits false BatchState.init units).1.processed_talks.isEmpty = true
    · rw [if_pos hmt, if_pos hmt]
    · rw [if_neg hmt, if_neg hmt]
      exact generate_landing_page_congr _ _ tpl render ns now1 hproc2


/-- C6 counterexample: the same single-unit input, unchanged, run twice
with force off; the second run skips the unit, yet the two landing pages
differ byte-wise because the `Last updated` stamp embeds the run date. -/
theorem second_run_page_not_identical :
    (runPipeline false (secondUnits [(exUnit, ⟨false, false⟩)] cxOuts)
        (some cxTpl) (fun s => s) (fun _ => 0) "Tue Jan 02 2024").1.skipped_talks = ["ex"] ∧
    (runPipeline false [(exUnit, ⟨false, false⟩)]
        (some cxTpl) (fun s => s) (fun _ => 0) "Mon Jan 01 2024").2.2.isSome = true ∧
    (runPipeline false (secondUnits [(exUnit, ⟨false, false⟩)] cxOuts)
        (some cxTpl) (fun s => s) (fun _ => 0) "Tue Jan 02 2024").2.2 ≠
      (runPipeline false [(exUnit, ⟨false, false⟩)]
        (some cxTpl) (fun s => s) (fun _ => 0) "Mon Jan 01 2024").2.2 := by
  decide

theorem second_run_skips_all_witness :
    (runPipeline false (secondUnits [(exUnit, ⟨false, false⟩)] cxOuts)
        (some cxTpl) (fun s => s) (fun _ => 0) "Mon Jan 01 2024").1.skipped_talks = ["ex"] := by
  have hh := second_run_skips_all [(exUnit, ⟨false, false⟩)] (some cxTpl)
    (fun s => s) (fun _ => 0) "Mon Jan 01 2024" "Mon Jan 01 2024"
    (by intro p hp; rcases List.mem_cons.mp hp with rfl | hp
        · exact ⟨rfl, by decide, rfl, "done", rfl⟩
        · cases hp)
  exact hh.1.trans rfl

end TalksToWeb
